import Mathlib

/-!
Verification of the artifact acquisition and packaging-descriptor pipeline
(`fetch_and_prep.py`): filename parsing, checksum verification, icon
extraction, spec-file manifest synthesis, and the driver's retry policy.

Strings from the script are modelled as `List Char`, file contents as
`List Nat` (bytes).  Library capabilities external to the repository
(`requests`, `hashlib`, `tarfile` opening, the filesystem) enter the models
as explicit parameters or oracles; all decision logic is translated from the
source.
-/

set_option maxRecDepth 8192

namespace FetchAndPrep

/-- Membership in the character class `[a-z]` of the strict filename regex. -/
def isLowerAlpha (c : Char) : Bool := decide ('a' ≤ c) && decide (c ≤ 'z')

/-- Matches a literal run at the head of a list: `dropPre? p s = some r`
exactly when `s = p ++ r`.  Building block for the literal pieces of the
regexes and for `str.startswith` / `str.endswith`. -/
def dropPre? : List Char → List Char → Option (List Char)
  | [], s => some s
  | _ :: _, [] => none
  | p :: ps, c :: cs => if p = c then dropPre? ps cs else none

/-- Splitting a character list at every separator position, keeping empty
fields, as Python `s.split(sep)` does. -/
def splitWhen (p : Char → Bool) : List Char → List (List Char)
  | [] => [[]]
  | c :: rest =>
    if p c then [] :: splitWhen p rest
    else
      match splitWhen p rest with
      | [] => [[]]
      | h :: t => (c :: h) :: t

/-- Python `s.split(sep)` for a single separator character. -/
def pySplit (sep : Char) (s : List Char) : List (List Char) :=
  splitWhen (fun c => decide (c = sep)) s

/-- Python whitespace, as classified by no-argument `str.split()`. -/
def isPyWs (c : Char) : Bool :=
  decide (c = ' ') || decide (c = '\t') || decide (c = '\n') || decide (c = '\r') ||
  decide (c = '\x0b') || decide (c = '\x0c')

/-- Python no-argument `s.split()`: whitespace-delimited tokens, empty fields
dropped. -/
def wsTokens (s : List Char) : List (List Char) :=
  (splitWhen isPyWs s).filter (fun t => decide (t ≠ []))

/-- Python `s.split('/')[-1]`: the characters after the last slash. -/
def lastSegment (s : List Char) : List Char :=
  (s.reverse.takeWhile (fun c => decide (c ≠ '/'))).reverse

/-- Lowering of one ASCII character, modelling Python `str.lower` on the hex
digests this script compares (hex digests are ASCII). -/
def asciiLowerChar (c : Char) : Char :=
  if decide ('A' ≤ c) && decide (c ≤ 'Z') then Char.ofNat (c.toNat + 32) else c

/-- Python `s.lower()` on an ASCII string. -/
def asciiLower (s : List Char) : List Char := s.map asciiLowerChar

/-- Numeric value of a hexadecimal digit character. -/
def hexVal (c : Char) : Nat :=
  if c.isDigit then c.toNat - 48
  else if decide ('a' ≤ c) && decide (c ≤ 'f') then c.toNat - 87
  else c.toNat - 55

/-- Hexadecimal digit characters, as accepted by `urllib.parse.unquote`. -/
def isHexDig (c : Char) : Bool :=
  c.isDigit || (decide ('a' ≤ c) && decide (c ≤ 'f')) ||
    (decide ('A' ≤ c) && decide (c ≤ 'F'))

/-- Percent-decoding, modelling `urllib.parse.unquote`: a valid `%hh` escape
decodes to one character, anything else is copied through unchanged. -/
def unquote : List Char → List Char
  | '%' :: a :: b :: rest =>
    if isHexDig a && isHexDig b then
      Char.ofNat (16 * hexVal a + hexVal b) :: unquote rest
    else '%' :: unquote (a :: b :: rest)
  | c :: rest => c :: unquote rest
  | [] => []

/-! ## Filename parser (source lines 34-50) -/

/-- Literal tail of the strict regex after the version, optional `-R` absent. -/
def plainTail : List Char := ("-linux-gtk-x86_64.tar.gz").toList

/-- Literal tail of the strict regex after the version, optional `-R` taken. -/
def rTail : List Char := ("-R-linux-gtk-x86_64.tar.gz").toList

/-- Engine of the strict pattern
`re.match(r'eclipse-([a-z]+)-(\d\x7b4\x7d-\d\x7b2\x7d)(-R)?-linux-gtk-x86_64\.tar\.gz', filename)`:
returns the two captures and the residue of the input after the matched
region.  `re.match` anchors only at the start of the string, so a successful
match may leave a non-empty residue.  The regex admits no backtracking
choices: `[a-z]+` is a maximal lowercase run necessarily followed by `-`,
the digit groups are fixed-width, and the `(-R)?` alternatives begin with
distinct characters. -/
def matchStrictCore (s : List Char) : Option (List Char × List Char × List Char) :=
  match dropPre? (("eclipse-").toList) s with
  | none => none
  | some s1 =>
    let v := s1.takeWhile isLowerAlpha
    if v = [] then none
    else
      match s1.dropWhile isLowerAlpha with
      | '-' :: y1 :: y2 :: y3 :: y4 :: '-' :: m1 :: m2 :: s6 =>
        if y1.isDigit && y2.isDigit && y3.isDigit && y4.isDigit &&
            m1.isDigit && m2.isDigit then
          match dropPre? rTail s6 with
          | some rest => some (v, [y1, y2, y3, y4, '-', m1, m2], rest)
          | none =>
            match dropPre? plainTail s6 with
            | some rest => some (v, [y1, y2, y3, y4, '-', m1, m2], rest)
            | none => none
        else none
      | _ => none

/-- Head match of the shape `\d\d\d\d-\d\d`, returning the seven matched
characters. -/
def matchYYYYMMAt : List Char → Option (List Char)
  | y1 :: y2 :: y3 :: y4 :: '-' :: m1 :: m2 :: _ =>
    if y1.isDigit && y2.isDigit && y3.isDigit && y4.isDigit &&
        m1.isDigit && m2.isDigit then
      some [y1, y2, y3, y4, '-', m1, m2]
    else none
  | _ => none

/-- Model of `re.search(r'\d\x7b4\x7d-\d\x7b2\x7d', filename)`: the leftmost
occurrence of the `YYYY-MM` shape. -/
def searchYYYYMM : List Char → Option (List Char)
  | [] => none
  | c :: rest =>
    match matchYYYYMMAt (c :: rest) with
    | some r => some r
    | none => searchYYYYMM rest

/-- Loose fallback branch of `parse_filename` (source lines 41-50): split on
`-`; with at least three parts and first part `eclipse`, the flavor is the
second part and the version the first `YYYY-MM` shaped substring of the whole
filename, defaulting to `unknown`; otherwise `("eclipse", "unknown")`. -/
def looseFallback (s : List Char) : List Char × List Char :=
  let parts := pySplit '-' s
  if 3 ≤ parts.length ∧ parts.headD [] = ("eclipse").toList then
    (parts.getD 1 [], (searchYYYYMM s).getD (("unknown").toList))
  else (("eclipse").toList, ("unknown").toList)

/-- Model of `parse_filename` (source lines 34-50): the strict regex first
(via `re.match`, start-anchored only), then the loose dash-split fallback,
then the default.  Total by construction: parsing never raises. -/
def parse_filename (s : List Char) : List Char × List Char :=
  match matchStrictCore s with
  | some (v, ver, _) => (v, ver)
  | none => looseFallback s

/-- Cascade as the claim words it, with the strict pattern required to match
the whole filename (no residue) rather than only an initial segment. -/
def parseFilenameAnchored (s : List Char) : List Char × List Char :=
  match matchStrictCore s with
  | some (v, ver, []) => (v, ver)
  | _ => looseFallback s

/-- The `YYYY-MM` shape: four digits, a hyphen, two digits. -/
def isYYYYMM : List Char → Bool
  | [y1, y2, y3, y4, '-', m1, m2] =>
    y1.isDigit && y2.isDigit && y3.isDigit && y4.isDigit && m1.isDigit && m2.isDigit
  | _ => false

/-! ## Integrity verifier (source lines 54-81) -/

/-- Outcome of `requests.get(sha512_url)` followed by `raise_for_status()`:
either some exception is raised (network failure or an error HTTP status), or
a response body is available. -/
inductive FetchOutcome where
  | raises
  | ok (body : List Char)
deriving DecidableEq

/-- Model of `verify_checksum` (source lines 54-81).  The SHA-512
implementation is the `hashlib` library, external to this repository, so it
enters the model as the parameter `sha512hex` (hex digest of a byte
sequence); chunked reading feeds the whole file through the hash, so the
digest is a function of the full byte content.  `fileContent` is `some` of
the file's bytes, or `none` when opening or reading the file raises.  Every
internal exception —  fetch failure, error status, the `IndexError` from
`response.text.split()[0]` on a token-free body, file read failure — lands in
the `except` clause, which returns `False`.  The final comparison lowers both
hex strings, and `.strip()` on a whitespace-split token is the identity. -/
def verify_checksum (sha512hex : List Nat → List Char)
    (fetch : FetchOutcome) (fileContent : Option (List Nat)) : Bool :=
  match fetch with
  | .raises => false
  | .ok body =>
    match wsTokens body with
    | [] => false
    | expected :: _ =>
      match fileContent with
      | none => false
      | some bytes => decide (asciiLower (sha512hex bytes) = asciiLower expected)

/-! ## Archive asset extractor (source lines 83-128) -/

/-- Member selection test of the icon scan (source lines 98-106): base name
exactly `icon.xpm`, or a base name that starts with `eclipse` and ends with
`.png` whose middle — Python slice `name[7:-4]` — is all digits or empty. -/
def isIconCandidate (entryName : List Char) : Bool :=
  let name := lastSegment entryName
  if name = ("icon.xpm").toList then true
  else if (dropPre? (("eclipse").toList) name).isSome
      && (dropPre? ((".png").toList.reverse) name.reverse).isSome then
    let middle := (name.drop 7).take (name.length - 11)
    (decide (middle ≠ []) && middle.all Char.isDigit) || decide (middle = [])
  else false

/-- Selection rule as the claim words it: the final path segment is exactly
`icon.xpm`, or it starts with `eclipse` and ends with `.png` and the
characters between these two fixed parts are empty or entirely digits. -/
def iconCandidateSpec (entryName : List Char) : Prop :=
  lastSegment entryName = ("icon.xpm").toList ∨
  ∃ mid, lastSegment entryName = ("eclipse").toList ++ mid ++ (".png").toList ∧
    (mid = [] ∨ ∀ c ∈ mid, c.isDigit = true)

/-- One member of a tar archive: its path inside the archive and its bytes. -/
structure TarMember where
  name : List Char
  content : List Nat
deriving DecidableEq

/-- Fixed name of the secondary icon bundle (source line 110). -/
def iconsArchiveNameL : List Char := ("eclipse-icons.tar.gz").toList

/-- Observable effect of one `extract_and_package_icons` run: its return
value and the files it creates in the destination directory (each created
file with its archive members). -/
structure ExtractResult where
  returned : Option (List Char)
  written : List (List Char × List TarMember)
deriving DecidableEq

/-- Model of `extract_and_package_icons` (source lines 83-128).  `gzOpens`
and `plainOpens` say whether `tarfile.open` succeeds on this file in mode
`r:gz` respectively mode `r` (the code tries `r:gz`, and on `ReadError`
falls back to `r`); `otherErr` stands for any other exception raised while
scanning or repacking.  All exceptions reach the outer `except`, which
returns `None`; the claims about the error paths consult only the returned
value.  On the success path the selected members are rewritten under their
base names (`TarInfo(name=m.name.split('/')[-1])`) into the bundle of fixed
name, created only when the candidate list is non-empty. -/
def extract_and_package_icons (gzOpens plainOpens otherErr : Bool)
    (members : List TarMember) : ExtractResult :=
  if gzOpens || plainOpens then
    if otherErr then ⟨none, []⟩
    else
      let icons := members.filter (fun m => isIconCandidate m.name)
      if icons = [] then ⟨none, []⟩
      else
        ⟨some iconsArchiveNameL,
         [(iconsArchiveNameL, icons.map (fun m => ⟨lastSegment m.name, m.content⟩))]⟩
  else ⟨none, []⟩

/-! ## Packaging descriptor synthesizer: manifest vs. install stage
(source lines 130-318) -/

/-- Package name `f"eclipse-\x7bflavor\x7d"` (source line 131). -/
def package_name (flavor : List Char) : List Char := ("eclipse-").toList ++ flavor

/-- One line of the `%files` manifest of the generated spec.  The three fixed
paths are `plain`; the two icon lines each carry a single `*` wildcard,
recorded structurally. -/
inductive SpecFilesLine where
  | plain (path : List Char)
  | hicolorGlob (pkg : List Char)
  | pixmapGlob (pkg : List Char)
deriving DecidableEq

/-- Rendered text of a manifest line, exactly as `create_spec_file` prints it
(source lines 288-293). -/
def renderFilesLine : SpecFilesLine → List Char
  | .plain p => p
  | .hicolorGlob pkg =>
      ("%\x7b_datadir\x7d/icons/hicolor/*/apps/").toList ++ pkg ++ (".png").toList
  | .pixmapGlob pkg => ("%\x7b_datadir\x7d/pixmaps/").toList ++ pkg ++ (".*").toList

/-- The `%files` section of the generated spec (source lines 288-293), for a
given package name.  The section is a constant of the package name: it does
not depend on whether an icon bundle was found. -/
def filesSection (pkg : List Char) : List SpecFilesLine :=
  [ .plain (("/opt/").toList ++ pkg),
    .plain (("%\x7b_bindir\x7d/").toList ++ pkg),
    .plain (("%\x7b_datadir\x7d/applications/").toList ++ pkg ++ (".desktop").toList),
    .hicolorGlob pkg,
    .pixmapGlob pkg ]

/-- RPM glob coverage of an installed path by one manifest line: a `plain`
line names exactly its path; in the wildcard lines `*` stands for any run of
characters not containing `/` (the package name itself is taken literally). -/
def lineCovers (line : SpecFilesLine) (path : List Char) : Bool :=
  match line with
  | .plain p => decide (p = path)
  | .hicolorGlob pkg =>
    match dropPre? (("%\x7b_datadir\x7d/icons/hicolor/").toList) path with
    | none => false
    | some r =>
      let seg := r.takeWhile (fun c => decide (c ≠ '/'))
      decide (r.drop seg.length = ("/apps/").toList ++ pkg ++ (".png").toList)
  | .pixmapGlob pkg =>
    match dropPre? (("%\x7b_datadir\x7d/pixmaps/").toList ++ pkg ++ ['.']) path with
    | none => false
    | some ext => ext.all (fun c => decide (c ≠ '/'))

/-- Shell `sed 's/[^0-9]*//g'` over an icon file name: every non-digit
character deleted (source line 160). -/
def sedDigits (name : List Char) : List Char := name.filter Char.isDigit

/-- Install destination of one flattened icon file, from the `%install` icon
loop (source lines 146-169), with the common `%\x7bbuildroot\x7d` stripped:
rpm checks the `%files` manifest against paths relative to the buildroot. -/
def iconInstallPath (pkg icon : List Char) : List Char :=
  if icon = ("icon.xpm").toList then
    ("%\x7b_datadir\x7d/pixmaps/").toList ++ pkg ++ (".xpm").toList
  else
    let size := sedDigits icon
    if size = [] then
      ("%\x7b_datadir\x7d/pixmaps/").toList ++ pkg ++ (".png").toList
    else
      ("%\x7b_datadir\x7d/icons/hicolor/").toList ++ size ++ ['x'] ++ size ++
        ("/apps/").toList ++ pkg ++ (".png").toList

/-- Shell glob guard of the icon loop, `for icon in eclipse*.png icon.xpm`:
only files with these names are processed (source line 149). -/
def iconLoopMatches (name : List Char) : Bool :=
  ((dropPre? (("eclipse").toList) name).isSome
      && (dropPre? ((".png").toList.reverse) name.reverse).isSome)
    || decide (name = ("icon.xpm").toList)

/-- Paths created by the `%install` stage (source lines 213-293), relative to
the buildroot: the `/opt` tree (owned as a single directory entry), the
desktop entry, the launcher wrapper, and one path per processed icon file.
`icons` is `some` of the flattened icon-bundle file names when an
`icons_archive_name` was passed to `create_spec_file`, and `none` otherwise —
in that case the icon loop is replaced by the `# No icons found to install`
placeholder and no icon path is installed. -/
def installOutputs (pkg : List Char) (icons : Option (List (List Char))) :
    List (List Char) :=
  [ ("/opt/").toList ++ pkg,
    ("%\x7b_datadir\x7d/applications/").toList ++ pkg ++ (".desktop").toList,
    ("%\x7b_bindir\x7d/").toList ++ pkg ]
  ++ (match icons with
      | none => []
      | some files => (files.filter iconLoopMatches).map (iconInstallPath pkg))

/-! ## Pipeline driver (source lines 337-381) -/

/-- Observable trace of the download/verify phase of `main` (source lines
349-373): how many times `download_file` ran, how many times
`verify_checksum` ran, and whether the run aborted through `sys.exit(1)`. -/
structure DriverTrace where
  downloads : Nat
  verifies : Nat
  fatal : Bool
deriving DecidableEq

/-- Model of the fetch/verify/retry logic of `main` (source lines 349-373).
`existsOnDisk` is `dest_path.exists()` — when true the fetch is skipped and
the file is reused from a prior run; `verify n` is the outcome of the n-th
`verify_checksum` call of this run. -/
def runVerifyPhase (existsOnDisk : Bool) (verify : Nat → Bool) : DriverTrace :=
  let downloadNeeded := !existsOnDisk
  let initialDownloads := if downloadNeeded then 1 else 0
  if verify 0 then
    ⟨initialDownloads, 1, false⟩
  else if !downloadNeeded then
    if verify 1 then ⟨initialDownloads + 1, 2, false⟩
    else ⟨initialDownloads + 1, 2, true⟩
  else
    ⟨initialDownloads, 1, true⟩

/-- Filename derivation in `main` (source lines 345-346):
`unquote(url.split('/')[-1])`. -/
def derivedFilename (url : List Char) : List Char := unquote (lastSegment url)

/-! ## Helper lemmas -/

theorem dropPre?_eq_append {p s r : List Char} (h : dropPre? p s = some r) :
    s = p ++ r := by
  induction p generalizing s with
  | nil =>
    simp only [dropPre?, Option.some.injEq] at h
    simpa using h
  | cons x xs ih =>
    cases s with
    | nil => simp [dropPre?] at h
    | cons c cs =>
      by_cases hx : x = c
      · subst hx
        simp only [dropPre?, if_pos rfl] at h
        simpa using ih h
      · simp [dropPre?, hx] at h

theorem dropPre?_append (p r : List Char) : dropPre? p (p ++ r) = some r := by
  induction p with
  | nil => simp [dropPre?]
  | cons x xs ih => simp [dropPre?, ih]

theorem dropPre?_append_same (xs p s : List Char) :
    dropPre? (xs ++ p) (xs ++ s) = dropPre? p s := by
  induction xs with
  | nil => simp
  | cons x t ih => simp [dropPre?, ih]

theorem unquote_ne_nil {l : List Char} (h : l ≠ []) : unquote l ≠ [] := by
  unfold unquote
  split
  · split <;> simp
  · simp
  · simp at h

@[simp] theorem eclipse_toList : ("eclipse").toList = ['e', 'c', 'l', 'i', 'p', 's', 'e'] := rfl

@[simp] theorem eclipseDash_toList :
    ("eclipse-").toList = ['e', 'c', 'l', 'i', 'p', 's', 'e', '-'] := rfl

@[simp] theorem png_toList : (".png").toList = ['.', 'p', 'n', 'g'] := rfl

@[simp] theorem iconXpm_toList :
    ("icon.xpm").toList = ['i', 'c', 'o', 'n', '.', 'x', 'p', 'm'] := rfl

theorem isLowerAlpha_ne_dash {c : Char} (h : isLowerAlpha c = true) :
    decide (c = '-') = false := by
  simp only [decide_eq_false_iff_not]
  rintro rfl
  exact absurd h (by decide)

theorem isLowerAlpha_not_digit {c : Char} (h : isLowerAlpha c = true) :
    c.isDigit = false := by
  simp only [isLowerAlpha, Bool.and_eq_true_iff, decide_eq_true_eq] at h
  by_contra hd
  simp only [Bool.not_eq_false, Char.isDigit, Bool.and_eq_true_iff] at hd
  have h2 : c ≤ '9' := by
    have h3 := hd.2
    simp only [decide_eq_true_eq] at h3
    exact h3
  exact absurd (Char.le_trans h.1 h2) (by decide)

theorem splitWhen_ne_nil (p : Char → Bool) (s : List Char) : splitWhen p s ≠ [] := by
  cases s with
  | nil => simp [splitWhen]
  | cons c rest =>
    by_cases hc : p c = true
    · simp [splitWhen, hc]
    · simp only [splitWhen, Bool.not_eq_true] at hc ⊢
      rw [hc]
      simp only [Bool.false_eq_true, if_false]
      split <;> simp

theorem splitWhen_cons_true {p : Char → Bool} {c : Char} (s : List Char)
    (h : p c = true) : splitWhen p (c :: s) = [] :: splitWhen p s := by
  simp [splitWhen, h]

theorem splitWhen_append_all {p : Char → Bool} {xs ys h : List Char}
    {t : List (List Char)} (hxs : ∀ c ∈ xs, p c = false)
    (hys : splitWhen p ys = h :: t) :
    splitWhen p (xs ++ ys) = (xs ++ h) :: t := by
  induction xs with
  | nil => simpa using hys
  | cons x xs' ih =>
    have hx : p x = false := hxs x (by simp)
    have ih' := ih (fun c hc => hxs c (by simp [hc]))
    simp only [List.cons_append, splitWhen, hx, Bool.false_eq_true, if_false,
      List.append_eq, ih']

theorem matchYYYYMMAt_head_nondigit {c : Char} {t : List Char}
    (h : c.isDigit = false) : matchYYYYMMAt (c :: t) = none := by
  unfold matchYYYYMMAt
  split
  · rename_i heq
    simp only [List.cons.injEq] at heq
    rw [← heq.1]
    simp [h]
  · rfl

theorem matchYYYYMMAt_isYYYYMM {l r : List Char} (h : matchYYYYMMAt l = some r) :
    isYYYYMM r = true := by
  unfold matchYYYYMMAt at h
  split at h
  · split at h
    · rename_i hd
      simp only [Option.some.injEq] at h
      subst h
      simpa [isYYYYMM] using hd
    · simp at h
  · simp at h

theorem searchYYYYMM_append {xs ys r : List Char}
    (hxs : ∀ c ∈ xs, c.isDigit = false)
    (hys : matchYYYYMMAt ys = some r) : searchYYYYMM (xs ++ ys) = some r := by
  induction xs with
  | nil =>
    simp only [List.nil_append]
    cases ys with
    | nil => simp [matchYYYYMMAt] at hys
    | cons c rest => simp [searchYYYYMM, hys]
  | cons x xs' ih =>
    have hx : x.isDigit = false := hxs x (by simp)
    have ih' := ih (fun c hc => hxs c (by simp [hc]))
    simp only [List.cons_append, searchYYYYMM, matchYYYYMMAt_head_nondigit hx,
      List.append_eq]
    exact ih'

theorem searchYYYYMM_isYYYYMM {s r : List Char} (h : searchYYYYMM s = some r) :
    isYYYYMM r = true := by
  induction s with
  | nil => simp [searchYYYYMM] at h
  | cons c rest ih =>
    simp only [searchYYYYMM] at h
    cases hA : matchYYYYMMAt (c :: rest) with
    | some r' =>
      rw [hA] at h
      obtain rfl : r' = r := by simpa using h
      exact matchYYYYMMAt_isYYYYMM hA
    | none => rw [hA] at h; exact ih h

theorem isYYYYMM_inv {l : List Char} (h : isYYYYMM l = true) :
    ∃ y1 y2 y3 y4 m1 m2 : Char, l = [y1, y2, y3, y4, '-', m1, m2] ∧
      y1.isDigit = true ∧ y2.isDigit = true ∧ y3.isDigit = true ∧
      y4.isDigit = true ∧ m1.isDigit = true ∧ m2.isDigit = true := by
  unfold isYYYYMM at h
  split at h
  next y1 y2 y3 y4 m1 m2 =>
    simp only [Bool.and_eq_true_iff] at h
    exact ⟨y1, y2, y3, y4, m1, m2, rfl,
      h.1.1.1.1.1, h.1.1.1.1.2, h.1.1.1.2, h.1.1.2, h.1.2, h.2⟩
  next => simp at h

theorem matchStrictCore_assemble {s s1 tl : List Char} {y1 y2 y3 y4 m1 m2 : Char}
    {s6 rest : List Char}
    (heq1 : dropPre? (("eclipse-").toList) s = some s1)
    (heq2 : s1.dropWhile isLowerAlpha = '-' :: y1 :: y2 :: y3 :: y4 :: '-' :: m1 :: m2 :: s6)
    (heq3 : dropPre? tl s6 = some rest) :
    s = ("eclipse-").toList ++ s1.takeWhile isLowerAlpha ++ ['-'] ++
        [y1, y2, y3, y4, '-', m1, m2] ++ tl ++ rest := by
  have h3 : s6 = tl ++ rest := dropPre?_eq_append heq3
  calc s = ("eclipse-").toList ++ s1 := dropPre?_eq_append heq1
    _ = ("eclipse-").toList ++ (s1.takeWhile isLowerAlpha ++ s1.dropWhile isLowerAlpha) := by
        rw [List.takeWhile_append_dropWhile]
    _ = ("eclipse-").toList ++ s1.takeWhile isLowerAlpha ++ ['-'] ++
        [y1, y2, y3, y4, '-', m1, m2] ++ tl ++ rest := by
        rw [heq2, h3]
        simp [List.append_assoc]

/-- Successful strict matching decomposes the filename into the fixed prefix,
a non-empty lowercase variant, the `YYYY-MM` version, one of the two literal
tails, and the residue left over by `re.match`. -/
theorem matchStrictCore_inv {s v ver rest : List Char}
    (h : matchStrictCore s = some (v, ver, rest)) :
    ∃ tail, (tail = rTail ∨ tail = plainTail) ∧
      s = ("eclipse-").toList ++ v ++ ['-'] ++ ver ++ tail ++ rest ∧
      v ≠ [] ∧ (∀ c ∈ v, isLowerAlpha c = true) ∧ isYYYYMM ver = true := by
  simp only [matchStrictCore] at h
  split at h
  · simp at h
  · rename_i s1 heq1
    split at h
    · simp at h
    · rename_i hv
      split at h
      · rename_i y1 y2 y3 y4 m1 m2 s6 heq2
        split at h
        · rename_i hdig
          split at h
          · rename_i rest' heq3
            simp only [Option.some.injEq, Prod.mk.injEq] at h
            obtain ⟨hv', hver', hrest'⟩ := h
            subst hv'; subst hver'; subst hrest'
            exact ⟨rTail, Or.inl rfl, matchStrictCore_assemble heq1 heq2 heq3,
              hv, fun c hc => List.mem_takeWhile_imp hc, by simpa [isYYYYMM] using hdig⟩
          · rename_i hmiss
            split at h
            · rename_i rest' heq3
              simp only [Option.some.injEq, Prod.mk.injEq] at h
              obtain ⟨hv', hver', hrest'⟩ := h
              subst hv'; subst hver'; subst hrest'
              exact ⟨plainTail, Or.inr rfl, matchStrictCore_assemble heq1 heq2 heq3,
                hv, fun c hc => List.mem_takeWhile_imp hc, by simpa [isYYYYMM] using hdig⟩
            · simp at h
        · simp at h
      · simp at h

/-- When the strict regex matches an initial segment of the filename, the
loose fallback computes the same variant and version: the dash-split starts
`eclipse :: variant :: _` and the leftmost `YYYY-MM` shape is the version
captured by the regex. -/
theorem looseFallback_of_strict {s v ver rest : List Char}
    (h : matchStrictCore s = some (v, ver, rest)) : looseFallback s = (v, ver) := by
  obtain ⟨tl, -, hs, hvne, hvlow, hver⟩ := matchStrictCore_inv h
  obtain ⟨y1, y2, y3, y4, m1, m2, hvshape, hd1, hd2, hd3, hd4, hd5, hd6⟩ := isYYYYMM_inv hver
  subst hvshape
  have hvnd : ∀ c ∈ v, (fun c => decide (c = '-')) c = false :=
    fun c hc => isLowerAlpha_ne_dash (hvlow c hc)
  have hform : s = ("eclipse").toList ++
      ('-' :: (v ++ '-' :: (y1 :: y2 :: y3 :: y4 :: '-' :: m1 :: m2 :: (tl ++ rest)))) := by
    rw [hs]
    simp [List.append_assoc]
  obtain ⟨h0, t0, hsplit0⟩ : ∃ h0 t0,
      splitWhen (fun c => decide (c = '-'))
        (y1 :: y2 :: y3 :: y4 :: '-' :: m1 :: m2 :: (tl ++ rest)) = h0 :: t0 := by
    cases hsp : splitWhen (fun c => decide (c = '-'))
        (y1 :: y2 :: y3 :: y4 :: '-' :: m1 :: m2 :: (tl ++ rest)) with
    | nil => exact absurd hsp (splitWhen_ne_nil _ _)
    | cons a b => exact ⟨a, b, rfl⟩
  have hB : splitWhen (fun c => decide (c = '-'))
      (v ++ '-' :: (y1 :: y2 :: y3 :: y4 :: '-' :: m1 :: m2 :: (tl ++ rest))) =
      (v ++ []) :: h0 :: t0 :=
    splitWhen_append_all hvnd (by rw [splitWhen_cons_true _ (by decide), hsplit0])
  have hC : pySplit '-' s = (("eclipse").toList ++ []) :: (v ++ []) :: h0 :: t0 := by
    rw [pySplit, hform]
    exact splitWhen_append_all (by decide)
      (by rw [splitWhen_cons_true _ (by decide), hB])
  have hsearch : searchYYYYMM s = some [y1, y2, y3, y4, '-', m1, m2] := by
    have hform2 : s = (("eclipse-").toList ++ v ++ ['-']) ++
        (y1 :: y2 :: y3 :: y4 :: '-' :: m1 :: m2 :: (tl ++ rest)) := by
      rw [hs]
      simp [List.append_assoc]
    rw [hform2]
    apply searchYYYYMM_append
    · intro c hc
      simp only [List.mem_append, List.mem_singleton] at hc
      rcases hc with (hc | hc) | rfl
      · simp only [eclipseDash_toList, List.mem_cons, List.not_mem_nil, or_false] at hc
        rcases hc with rfl | rfl | rfl | rfl | rfl | rfl | rfl | rfl <;> decide
      · exact isLowerAlpha_not_digit (hvlow c hc)
      · decide
    · simp [matchYYYYMMAt, hd1, hd2, hd3, hd4, hd5, hd6]
  unfold looseFallback
  rw [hC]
  rw [if_pos (by constructor <;> simp)]
  simp only [List.getD, List.getElem?_cons_succ, List.getElem?_cons_zero, hsearch]
  simp

/-- A name that starts with `eclipse` and ends with `.png` splits as
`eclipse ++ mid ++ .png`, and the Python slice `name[7:-4]` is that middle. -/
theorem eclipse_png_decomp {name r1 : List Char}
    (h1 : dropPre? (("eclipse").toList) name = some r1)
    (h2 : (dropPre? ((".png").toList.reverse) name.reverse).isSome = true) :
    ∃ mid, name = ("eclipse").toList ++ mid ++ (".png").toList ∧
      (name.drop 7).take (name.length - 11) = mid := by
  obtain ⟨r2, hr2⟩ := Option.isSome_iff_exists.mp h2
  have hname : name = ("eclipse").toList ++ r1 := dropPre?_eq_append h1
  have hrev : name.reverse = ['g', 'n', 'p', '.'] ++ r2 := dropPre?_eq_append hr2
  obtain ⟨rr, hrr⟩ : ∃ rr, r1 = rr.reverse := ⟨r1.reverse, (List.reverse_reverse r1).symm⟩
  subst hrr
  subst hname
  have hesp : ((['e', 'c', 'l', 'i', 'p', 's', 'e'] : List Char)).reverse =
      ['e', 's', 'p', 'i', 'l', 'c', 'e'] := rfl
  simp only [eclipse_toList, List.reverse_append, List.reverse_reverse, hesp] at hrev
  match rr, hrev with
  | [], hrev => simp at hrev
  | [x1], hrev => simp at hrev
  | [x1, x2], hrev => simp at hrev
  | [x1, x2, x3], hrev => simp at hrev
  | x1 :: x2 :: x3 :: x4 :: u, hrev =>
    obtain ⟨hx1, hx2, hx3, hx4, -⟩ :
        x1 = 'g' ∧ x2 = 'n' ∧ x3 = 'p' ∧ x4 = '.' ∧ u ++ ['e', 's', 'p', 'i', 'l', 'c', 'e'] = r2 := by
      simpa using hrev
    subst hx1; subst hx2; subst hx3; subst hx4
    refine ⟨u.reverse, ?_, ?_⟩
    · simp [List.reverse_cons, List.append_assoc]
    · have hR : (('g' :: 'n' :: 'p' :: '.' :: u).reverse : List Char) =
          u.reverse ++ ['.', 'p', 'n', 'g'] := by
        simp [List.reverse_cons, List.append_assoc]
      rw [hR]
      have hdrop :
          ((("eclipse").toList ++ (u.reverse ++ ['.', 'p', 'n', 'g'])).drop 7) =
            u.reverse ++ ['.', 'p', 'n', 'g'] :=
        List.drop_left' (by simp)
      have hlen :
          (("eclipse").toList ++ (u.reverse ++ ['.', 'p', 'n', 'g'])).length - 11 =
            u.reverse.length := by
        simp
      rw [hdrop, hlen]
      exact List.take_left' rfl

@[simp] theorem opt_toList : ("/opt/").toList = ['/', 'o', 'p', 't', '/'] := rfl

@[simp] theorem bindir_toList :
    ("%\x7b_bindir\x7d/").toList =
      ['%', '\x7b', '_', 'b', 'i', 'n', 'd', 'i', 'r', '\x7d', '/'] := rfl

@[simp] theorem appsdir_toList :
    ("%\x7b_datadir\x7d/applications/").toList =
      ['%', '\x7b', '_', 'd', 'a', 't', 'a', 'd', 'i', 'r', '\x7d', '/',
       'a', 'p', 'p', 'l', 'i', 'c', 'a', 't', 'i', 'o', 'n', 's', '/'] := rfl

@[simp] theorem hicolordir_toList :
    ("%\x7b_datadir\x7d/icons/hicolor/").toList =
      ['%', '\x7b', '_', 'd', 'a', 't', 'a', 'd', 'i', 'r', '\x7d', '/',
       'i', 'c', 'o', 'n', 's', '/', 'h', 'i', 'c', 'o', 'l', 'o', 'r', '/'] := rfl

@[simp] theorem pixmapsdir_toList :
    ("%\x7b_datadir\x7d/pixmaps/").toList =
      ['%', '\x7b', '_', 'd', 'a', 't', 'a', 'd', 'i', 'r', '\x7d', '/',
       'p', 'i', 'x', 'm', 'a', 'p', 's', '/'] := rfl

theorem isDigit_ne_slash {c : Char} (h : c.isDigit = true) : decide (c ≠ '/') = true := by
  simp only [ne_eq, decide_not, Bool.not_eq_true', decide_eq_false_iff_not]
  rintro rfl
  exact absurd h (by decide)

theorem takeWhile_append_all {p : Char → Bool} {xs : List Char} (ys : List Char)
    (h : ∀ c ∈ xs, p c = true) : (xs ++ ys).takeWhile p = xs ++ ys.takeWhile p := by
  induction xs with
  | nil => simp
  | cons x t ih =>
    have hx := h x (by simp)
    simp [List.takeWhile_cons, hx, ih (fun c hc => h c (by simp [hc]))]

theorem countP_opt (pkg : List Char) :
    (filesSection pkg).countP
      (fun line => lineCovers line (("/opt/").toList ++ pkg)) = 1 := by
  simp [filesSection, List.countP_cons, List.countP_nil, lineCovers, dropPre?]

theorem countP_desktop (pkg : List Char) :
    (filesSection pkg).countP (fun line => lineCovers line
      (("%\x7b_datadir\x7d/applications/").toList ++ pkg ++ (".desktop").toList)) = 1 := by
  simp [filesSection, List.countP_cons, List.countP_nil, lineCovers, dropPre?]

theorem countP_bindir (pkg : List Char) :
    (filesSection pkg).countP
      (fun line => lineCovers line (("%\x7b_bindir\x7d/").toList ++ pkg)) = 1 := by
  simp [filesSection, List.countP_cons, List.countP_nil, lineCovers, dropPre?]

theorem countP_pixmap_ext (pkg ext : List Char)
    (hext : ext.all (fun c => decide (c ≠ '/')) = true) :
    (filesSection pkg).countP (fun line => lineCovers line
      (("%\x7b_datadir\x7d/pixmaps/").toList ++ pkg ++ ('.' :: ext))) = 1 := by
  have h5 : lineCovers (SpecFilesLine.pixmapGlob pkg)
      (("%\x7b_datadir\x7d/pixmaps/").toList ++ pkg ++ ('.' :: ext)) = true := by
    simp only [lineCovers]
    rw [show (("%\x7b_datadir\x7d/pixmaps/").toList ++ pkg ++ ('.' :: ext)) =
        ((("%\x7b_datadir\x7d/pixmaps/").toList ++ pkg ++ ['.']) ++ ext) by simp]
    rw [dropPre?_append]
    dsimp only
    exact hext
  have h1 : lineCovers (SpecFilesLine.plain (("/opt/").toList ++ pkg))
      (("%\x7b_datadir\x7d/pixmaps/").toList ++ pkg ++ ('.' :: ext)) = false := by
    simp [lineCovers]
  have h2 : lineCovers (SpecFilesLine.plain (("%\x7b_bindir\x7d/").toList ++ pkg))
      (("%\x7b_datadir\x7d/pixmaps/").toList ++ pkg ++ ('.' :: ext)) = false := by
    simp [lineCovers]
  have h3 : lineCovers (SpecFilesLine.plain
        (("%\x7b_datadir\x7d/applications/").toList ++ pkg ++ (".desktop").toList))
      (("%\x7b_datadir\x7d/pixmaps/").toList ++ pkg ++ ('.' :: ext)) = false := by
    simp [lineCovers]
  have h4 : lineCovers (SpecFilesLine.hicolorGlob pkg)
      (("%\x7b_datadir\x7d/pixmaps/").toList ++ pkg ++ ('.' :: ext)) = false := by
    simp [lineCovers, dropPre?]
  simp only [filesSection, List.countP_cons, List.countP_nil, h1, h2, h3, h4, h5]
  simp

theorem countP_hicolor (pkg size : List Char) (hdig : ∀ c ∈ size, c.isDigit = true) :
    (filesSection pkg).countP (fun line => lineCovers line
      (("%\x7b_datadir\x7d/icons/hicolor/").toList ++ size ++ ['x'] ++ size ++
        ("/apps/").toList ++ pkg ++ (".png").toList)) = 1 := by
  have h4 : lineCovers (SpecFilesLine.hicolorGlob pkg)
      (("%\x7b_datadir\x7d/icons/hicolor/").toList ++ size ++ ['x'] ++ size ++
        ("/apps/").toList ++ pkg ++ (".png").toList) = true := by
    simp only [lineCovers]
    rw [show (("%\x7b_datadir\x7d/icons/hicolor/").toList ++ size ++ ['x'] ++ size ++
          ("/apps/").toList ++ pkg ++ (".png").toList) =
        (("%\x7b_datadir\x7d/icons/hicolor/").toList ++
          ((size ++ ['x'] ++ size) ++ (("/apps/").toList ++ pkg ++ (".png").toList)))
        by simp [List.append_assoc]]
    rw [dropPre?_append]
    dsimp only
    have hblock : ∀ c ∈ size ++ ['x'] ++ size, (fun c => decide (c ≠ '/')) c = true := by
      intro c hc
      simp only [List.mem_append, List.mem_singleton] at hc
      rcases hc with (hc | rfl) | hc
      · exact isDigit_ne_slash (hdig c hc)
      · decide
      · exact isDigit_ne_slash (hdig c hc)
    have hseg : ((size ++ ['x'] ++ size) ++
        (("/apps/").toList ++ pkg ++ (".png").toList)).takeWhile
          (fun c => decide (c ≠ '/')) = (size ++ ['x'] ++ size) ++ [] := by
      rw [takeWhile_append_all _ hblock]
      simp [List.takeWhile_cons]
    rw [hseg]
    simp only [List.append_nil]
    rw [List.drop_left]
    simp
  have h1 : lineCovers (SpecFilesLine.plain (("/opt/").toList ++ pkg))
      (("%\x7b_datadir\x7d/icons/hicolor/").toList ++ size ++ ['x'] ++ size ++
        ("/apps/").toList ++ pkg ++ (".png").toList) = false := by
    simp [lineCovers]
  have h2 : lineCovers (SpecFilesLine.plain (("%\x7b_bindir\x7d/").toList ++ pkg))
      (("%\x7b_datadir\x7d/icons/hicolor/").toList ++ size ++ ['x'] ++ size ++
        ("/apps/").toList ++ pkg ++ (".png").toList) = false := by
    simp [lineCovers]
  have h3 : lineCovers (SpecFilesLine.plain
        (("%\x7b_datadir\x7d/applications/").toList ++ pkg ++ (".desktop").toList))
      (("%\x7b_datadir\x7d/icons/hicolor/").toList ++ size ++ ['x'] ++ size ++
        ("/apps/").toList ++ pkg ++ (".png").toList) = false := by
    simp [lineCovers]
  have h5 : lineCovers (SpecFilesLine.pixmapGlob pkg)
      (("%\x7b_datadir\x7d/icons/hicolor/").toList ++ size ++ ['x'] ++ size ++
        ("/apps/").toList ++ pkg ++ (".png").toList) = false := by
    simp [lineCovers, dropPre?]
  simp only [filesSection, List.countP_cons, List.countP_nil, h1, h2, h3, h4, h5]
  simp

theorem countP_icon (pkg icon : List Char) :
    (filesSection pkg).countP
      (fun line => lineCovers line (iconInstallPath pkg icon)) = 1 := by
  simp only [iconInstallPath]
  by_cases hx : icon = ("icon.xpm").toList
  · rw [if_pos hx]
    exact countP_pixmap_ext pkg ['x', 'p', 'm'] (by decide)
  · rw [if_neg hx]
    by_cases hz : sedDigits icon = []
    · rw [if_pos hz]
      exact countP_pixmap_ext pkg ['p', 'n', 'g'] (by decide)
    · rw [if_neg hz]
      exact countP_hicolor pkg (sedDigits icon)
        (fun c hc => (List.mem_filter.mp hc).2)

/-! ## Claims -/

/-- C1.  Retry policy asymmetry of the pipeline driver: when the first
checksum verification fails, a file reused from a prior run
(`existsOnDisk = true`, fetch skipped) gets exactly one forced re-download
and exactly one re-verification, with a fatal exit exactly when the second
verification also fails; a freshly downloaded file aborts fatally at once,
with one download and one verification in total, no retry. -/
theorem retry_policy_asymmetry (verify : Nat → Bool) (h : verify 0 = false) :
    runVerifyPhase true verify = ⟨1, 2, !verify 1⟩ ∧
    runVerifyPhase false verify = ⟨1, 1, true⟩ := by
  constructor
  · cases hv : verify 1 <;> simp [runVerifyPhase, h, hv]
  · simp [runVerifyPhase, h]

/-- Witness for C1 at the all-failing verification oracle. -/
theorem retry_policy_asymmetry_witness :
    (fun _ : Nat => false) 0 = false ∧
    runVerifyPhase true (fun _ => false) = ⟨1, 2, true⟩ ∧
    runVerifyPhase false (fun _ => false) = ⟨1, 1, true⟩ := by
  refine ⟨rfl, ?_⟩
  have h := retry_policy_asymmetry (fun _ => false) rfl
  simpa using h

/-- C3.  `verify_checksum` always returns a boolean and never raises past
its own boundary: it returns `true` exactly when the checksum fetch
succeeded, the body has a first whitespace-delimited token, the file could be
read, and the locally computed SHA-512 hex digest equals that token
case-insensitively; on every internal failure it returns `false`. -/
theorem verify_checksum_contract (sha512hex : List Nat → List Char)
    (fetch : FetchOutcome) (fileContent : Option (List Nat)) :
    verify_checksum sha512hex fetch fileContent = true ↔
      ∃ body tok rest bytes,
        fetch = FetchOutcome.ok body ∧
        wsTokens body = tok :: rest ∧
        fileContent = some bytes ∧
        asciiLower (sha512hex bytes) = asciiLower tok := by
  constructor
  · intro h
    cases fetch with
    | raises => simp [verify_checksum] at h
    | ok body =>
      cases hw : wsTokens body with
      | nil => simp [verify_checksum, hw] at h
      | cons tok rest =>
        cases fileContent with
        | none => simp [verify_checksum, hw] at h
        | some bytes =>
          simp only [verify_checksum, hw, decide_eq_true_eq] at h
          exact ⟨body, tok, rest, bytes, rfl, hw, rfl, h⟩
  · rintro ⟨body, tok, rest, bytes, rfl, hw, rfl, hcmp⟩
    simp [verify_checksum, hw, hcmp]

/-- C7.  When the archive opens and at least one icon candidate is selected,
the extractor creates exactly one file in the destination directory, under
the fixed name `eclipse-icons.tar.gz`, whose members are exactly the selected
candidates, each renamed to the final segment of its original archive path,
and returns that fixed name. -/
theorem icons_bundle_flatten_fixed_name (gz plain : Bool) (members : List TarMember)
    (hopen : (gz || plain) = true)
    (hne : members.filter (fun m => isIconCandidate m.name) ≠ []) :
    extract_and_package_icons gz plain false members =
      ⟨some iconsArchiveNameL,
       [(iconsArchiveNameL,
         (members.filter (fun m => isIconCandidate m.name)).map
           (fun m => ⟨lastSegment m.name, m.content⟩))]⟩ := by
  simp [extract_and_package_icons, hopen, hne]

/-- Witness for C7 on a one-member archive holding `x/icon.xpm`. -/
theorem icons_bundle_flatten_fixed_name_witness :
    ((true || false) = true) ∧
    (([⟨("x/icon.xpm").toList, [0]⟩] : List TarMember).filter
        (fun m => isIconCandidate m.name) ≠ []) ∧
    extract_and_package_icons true false false [⟨("x/icon.xpm").toList, [0]⟩] =
      ⟨some iconsArchiveNameL,
       [(iconsArchiveNameL, [⟨("icon.xpm").toList, [0]⟩])]⟩ :=
  ⟨rfl, by decide,
    (icons_bundle_flatten_fixed_name true false [⟨("x/icon.xpm").toList, [0]⟩]
      rfl (by decide)).trans (by decide)⟩

/-- C8.  Archive-open fallback and non-fatal total failure: the extractor
returns no asset when neither the gzip mode nor the plain mode can open the
archive, and when any other exception occurs during extraction; and when the
gzip attempt fails but the plain fallback opens the archive, the run behaves
exactly as when the gzip attempt succeeds. -/
theorem archive_open_fallback (gz plain err : Bool) (members : List TarMember) :
    (extract_and_package_icons false false err members).returned = none ∧
    (extract_and_package_icons gz plain true members).returned = none ∧
    extract_and_package_icons false true err members =
      extract_and_package_icons true plain err members := by
  refine ⟨by simp [extract_and_package_icons], ?_, by simp [extract_and_package_icons]⟩
  cases gz <;> cases plain <;> simp [extract_and_package_icons]

/-- C10.  Frame property of the no-candidate path: when the archive opens,
extraction raises nothing, and no member is an icon candidate, the extractor
returns `none` and creates no file in the destination directory. -/
theorem no_candidate_frame (gz plain : Bool) (members : List TarMember)
    (hopen : (gz || plain) = true)
    (hnone : members.filter (fun m => isIconCandidate m.name) = []) :
    extract_and_package_icons gz plain false members = ⟨none, []⟩ := by
  simp [extract_and_package_icons, hopen, hnone]

/-- Witness for C10 on a one-member archive with no icon-like entry. -/
theorem no_candidate_frame_witness :
    ((true || false) = true) ∧
    (([⟨("eclipse/readme.txt").toList, [7]⟩] : List TarMember).filter
        (fun m => isIconCandidate m.name) = []) ∧
    extract_and_package_icons true false false [⟨("eclipse/readme.txt").toList, [7]⟩] =
      ⟨none, []⟩ :=
  ⟨rfl, by decide,
    no_candidate_frame true false [⟨("eclipse/readme.txt").toList, [7]⟩] rfl (by decide)⟩

/-- C2.  Filename parsing is total (the model is a total function) and
follows the strict/loose/default cascade as the claim words it: the code's
start-anchored `re.match` agrees on every input with the claim's reading in
which the strict pattern must match the whole filename, and the strict
example parses to `("cpp", "2025-12")`. -/
theorem parse_filename_cascade :
    (∀ s : List Char, parse_filename s = parseFilenameAnchored s) ∧
    parse_filename (("eclipse-cpp-2025-12-R-linux-gtk-x86_64.tar.gz").toList) =
      (("cpp").toList, ("2025-12").toList) := by
  constructor
  · intro s
    cases hm : matchStrictCore s with
    | none => simp [parse_filename, parseFilenameAnchored, hm]
    | some t =>
      obtain ⟨v, ver, rest⟩ := t
      cases rest with
      | nil => simp [parse_filename, parseFilenameAnchored, hm]
      | cons r rs =>
        simp only [parse_filename, parseFilenameAnchored, hm]
        exact (looseFallback_of_strict hm).symm
  · decide

/-- Counterexample to C4 as stated: `parse_filename` can return a variant
that is not a lowercase token — on `eclipse-CPP-x` the loose fallback returns
the raw second dash-separated token `CPP`. -/
theorem variant_lowercase_counterexample :
    parse_filename (("eclipse-CPP-x").toList) = (("CPP").toList, ("unknown").toList) ∧
    (("CPP").toList.all isLowerAlpha) = false := by decide

/-- C4 (amended).  The version half of the invariant holds for every
filename: the version returned by `parse_filename` either has the `YYYY-MM`
shape or is the literal `unknown`.  (The variant half fails: on the loose
fallback path the variant is the raw second token and need not be
lowercase.) -/
theorem parse_filename_version_invariant (s : List Char) :
    (parse_filename s).2 = ("unknown").toList ∨ isYYYYMM (parse_filename s).2 = true := by
  cases hm : matchStrictCore s with
  | some t =>
    obtain ⟨v, ver, rest⟩ := t
    right
    simp only [parse_filename, hm]
    obtain ⟨-, -, -, -, -, hver⟩ := matchStrictCore_inv hm
    exact hver
  | none =>
    simp only [parse_filename, hm, looseFallback]
    by_cases hcond : 3 ≤ (pySplit '-' s).length ∧
        (pySplit '-' s).headD [] = ("eclipse").toList
    · rw [if_pos hcond]
      cases hsr : searchYYYYMM s with
      | none => left; simp [hsr]
      | some r =>
        right
        simpa [hsr] using searchYYYYMM_isYYYYMM hsr
    · rw [if_neg hcond]
      left
      rfl

/-- C5.  Icon candidate selection: an archive entry is selected exactly when
the final segment of its path is `icon.xpm`, or that segment starts with
`eclipse` and ends with `.png` with nothing or only digits in between. -/
theorem icon_candidate_selection (entryName : List Char) :
    isIconCandidate entryName = true ↔ iconCandidateSpec entryName := by
  simp only [isIconCandidate, iconCandidateSpec]
  generalize lastSegment entryName = name
  constructor
  · intro h
    by_cases hx : name = ("icon.xpm").toList
    · exact Or.inl hx
    · rw [if_neg hx] at h
      split at h
      next hc =>
        obtain ⟨hA, hB⟩ := Bool.and_eq_true_iff.mp hc
        obtain ⟨r1, hr1⟩ := Option.isSome_iff_exists.mp hA
        obtain ⟨mid, hdecomp, hslice⟩ := eclipse_png_decomp hr1 hB
        refine Or.inr ⟨mid, hdecomp, ?_⟩
        rw [hslice] at h
        rcases Bool.or_eq_true_iff.mp h with hleft | hright
        · exact Or.inr (List.all_eq_true.mp (Bool.and_eq_true_iff.mp hleft).2)
        · exact Or.inl (by simpa using hright)
      next hc => simp at h
  · rintro (hx | ⟨mid, hname, hmid⟩)
    · simp [hx]
    · have hne : name ≠ ("icon.xpm").toList := by
        rw [hname]
        intro heq
        have := congrArg List.length heq
        simp [List.length_append] at this
      rw [if_neg hne]
      have hA : dropPre? (("eclipse").toList) name = some (mid ++ (".png").toList) := by
        rw [hname, List.append_assoc]
        exact dropPre?_append _ _
      have hB : dropPre? ((".png").toList.reverse) name.reverse =
          some (mid.reverse ++ (("eclipse").toList).reverse) := by
        have hnr : name.reverse =
            (".png").toList.reverse ++ (mid.reverse ++ (("eclipse").toList).reverse) := by
          rw [hname]
          simp [List.reverse_append]
        rw [hnr]
        exact dropPre?_append _ _
      rw [if_pos (by rw [hA, hB]; simp)]
      have hs1 : name.drop 7 = mid ++ (".png").toList := by
        rw [hname, List.append_assoc]
        exact List.drop_left' (by simp)
      have hs2 : name.length - 11 = mid.length := by
        rw [hname]
        simp [List.length_append]
      rw [hs1, hs2, List.take_left' rfl]
      rcases hmid with rfl | hall
      · simp
      · by_cases hm : mid = []
        · simp [hm]
        · simp [hm, List.all_eq_true.mpr hall]

/-- Counterexample to C6 as stated: with no icon bundle (and likewise when
the bundle lacks an icon class) the `%files` manifest lists a wildcard icon
path that the install stage does not install — the `pixmaps` wildcard line is
in the manifest, yet covers none of the paths installed for
`icons_archive_name = None`. -/
theorem manifest_exactness_counterexample :
    SpecFilesLine.pixmapGlob (package_name (("cpp").toList)) ∈
      filesSection (package_name (("cpp").toList)) ∧
    (installOutputs (package_name (("cpp").toList)) none).all
      (fun path =>
        !(lineCovers (SpecFilesLine.pixmapGlob (package_name (("cpp").toList))) path)) =
      true := by decide

/-- C6 (amended).  Manifest completeness holds in one direction for every
input: each path installed by the install stage is covered by exactly one
line of the single `%files` section (including the wildcard icon lines).
The converse fails: when the icon bundle is absent, the two icon wildcard
lines remain listed but match no installed path. -/
theorem manifest_covers_installed (flavor : List Char)
    (icons : Option (List (List Char))) (path : List Char)
    (hmem : path ∈ installOutputs (package_name flavor) icons) :
    (filesSection (package_name flavor)).countP
      (fun line => lineCovers line path) = 1 := by
  rcases icons with _ | files
  · simp only [installOutputs, List.append_nil, List.mem_cons, List.not_mem_nil,
      or_false] at hmem
    rcases hmem with rfl | rfl | rfl
    · exact countP_opt _
    · exact countP_desktop _
    · exact countP_bindir _
  · simp only [installOutputs, List.mem_append, List.mem_cons, List.not_mem_nil,
      or_false, List.mem_map] at hmem
    rcases hmem with (rfl | rfl | rfl) | ⟨icon, -, rfl⟩
    · exact countP_opt _
    · exact countP_desktop _
    · exact countP_bindir _
    · exact countP_icon _ icon

/-- Witness for the amended C6 on the concrete 48x48 icon path of the `cpp`
flavor. -/
theorem manifest_covers_installed_witness :
    (("%\x7b_datadir\x7d/icons/hicolor/48x48/apps/eclipse-cpp.png").toList ∈
      installOutputs (package_name (("cpp").toList)) (some [("eclipse48.png").toList])) ∧
    (filesSection (package_name (("cpp").toList))).countP
      (fun line => lineCovers line
        (("%\x7b_datadir\x7d/icons/hicolor/48x48/apps/eclipse-cpp.png").toList)) = 1 :=
  ⟨by decide,
    manifest_covers_installed (("cpp").toList) (some [("eclipse48.png").toList])
      _ (by decide)⟩

/-- Counterexample to C9 as stated: the driver accepts any non-empty URL
string, and for a URL ending in `/` the derived filename — last `/`-separated
segment, percent-decoded — is empty. -/
theorem derived_filename_counterexample :
    derivedFilename (("https://example.com/downloads/").toList) = [] := by decide

/-- C9 (amended).  For every URL whose last `/`-separated path segment is
non-empty — equivalently, every accepted URL not ending in `/` — the filename
derived by the driver is non-empty. -/
theorem derived_filename_nonempty (url : List Char) (h : lastSegment url ≠ []) :
    derivedFilename url ≠ [] := by
  unfold derivedFilename
  exact unquote_ne_nil h

/-- Witness for the amended C9 on a well-formed artifact URL. -/
theorem derived_filename_nonempty_witness :
    lastSegment (("https://x/a.tar.gz").toList) ≠ [] ∧
    derivedFilename (("https://x/a.tar.gz").toList) ≠ [] :=
  ⟨by decide, derived_filename_nonempty _ (by decide)⟩

end FetchAndPrep
